import Mathlib

/-!
# ZOF_Project — verification of the root-finding engine

Shallow embedding of the six iterative root-finding methods of
`app.py` (web call site, returns a per-iteration trace) and
`ZOF_CLI.py` (CLI call site, returns only root/residual/count),
over exact rationals `ℚ`.  Python locals become loop parameters;
the `for i in range(1, max_iter + 1)` loop becomes structural
recursion on remaining fuel, with `fuel = max_iter - i + 1` at
every call; a Python local that may be unbound when the loop body
never ran (`c`, `x1`, `x2`, `err`) is carried as an `Option`, and
reading it unbound is the `nameError` outcome; a Python float
division whose denominator is zero raises `ZeroDivisionError`,
modelled as the `divisionByZero` outcome.
-/

namespace ZOF

/-- Run-aborting outcomes.  `invalidBracket`, `degenerateStep` and
`zeroDerivative` are the `ValueError`s raised explicitly by `app.py`;
`divisionByZero` is Python's `ZeroDivisionError` (raised explicitly in
`ZOF_CLI.py`'s secant/newton, implicitly by a zero-denominator float
division); `nameError` is Python's unbound-local error on the
zero-iteration exhaustion path; `invalidConfiguration` is the error the
spec's taxonomy names for bad `max_iter`/`tol` — it appears in the type
so that claims about it are statable, and no code path produces it. -/
inductive Err where
  | invalidBracket
  | degenerateStep
  | zeroDerivative
  | divisionByZero
  | nameError
  | invalidConfiguration
deriving DecidableEq, Repr

/-- The 4-tuple `root, final_err, iters, rows` returned by every
`app.py` method; `ρ` is the method-specific row shape. -/
structure RunResult (ρ : Type) where
  root : ℚ
  residual : ℚ
  iters : ℕ
  rows : List ρ
deriving DecidableEq, Repr

/-- Row `(i, a, b, c, fc, err)` of bisection / regula falsi; `err` is
`None` on the first iteration. -/
abbrev BisectRow : Type := ℕ × ℚ × ℚ × ℚ × ℚ × Option ℚ

/-- Row `(i, x0, x1, x2, f2, err)` of secant. -/
abbrev SecantRow : Type := ℕ × ℚ × ℚ × ℚ × ℚ × ℚ

/-- Row `(i, x0, fx, dfx, x1, err)` of newton_raphson. -/
abbrev NewtonRow : Type := ℕ × ℚ × ℚ × ℚ × ℚ × ℚ

/-- Row `(i, x0, x1, err)` of fixed_point_iteration. -/
abbrev FixedRow : Type := ℕ × ℚ × ℚ × ℚ

/-- Row `(i, x0, fx, x1, err)` of modified_secant. -/
abbrev ModSecRow : Type := ℕ × ℚ × ℚ × ℚ × ℚ

/-- Python `abs(c - c_old) if c_old is not None else None`. -/
def prevErr (cOld : Option ℚ) (c : ℚ) : Option ℚ :=
  cOld.map fun co => |c - co|

/-- Python `c_old is not None and abs(c - c_old) < tol`. -/
def closeToPrev (cOld : Option ℚ) (c tol : ℚ) : Bool :=
  match cOld with
  | some co => decide (|c - co| < tol)
  | none => false

namespace App

/-- Loop of `app.py` `bisection` (lines 23–42).  State: iteration
index `i`, bracket `a b` with cached `fa fb`, previous midpoint
`cOld` (Python `c_old`, `None` before the first pass), accumulated
`rows`.  At exhaustion Python returns the last computed `c`, which
(after the `c_old = c` assignment) is `cOld`; if the body never ran,
`c` is an unbound local. -/
def bisectionLoop (f : ℚ → ℚ) (tol : ℚ) (maxIter : ℕ) :
    ℕ → ℕ → ℚ → ℚ → ℚ → ℚ → Option ℚ → List BisectRow →
      Except Err (RunResult BisectRow)
  | 0, _, _, _, _, _, none, _ => .error .nameError
  | 0, _, _, _, _, _, some c, rows => .ok ⟨c, |f c|, maxIter, rows⟩
  | fuel + 1, i, a, b, fa, fb, cOld, rows =>
    let c := (1 / 2 : ℚ) * (a + b)
    let fc := f c
    let rows' := rows ++ [(i, a, b, c, fc, prevErr cOld c)]
    if |fc| = 0 ∨ closeToPrev cOld c tol ∨ |b - a| / 2 < tol then
      .ok ⟨c, |fc|, i, rows'⟩
    else if fa * fc < 0 then
      bisectionLoop f tol maxIter fuel (i + 1) a c fa fc (some c) rows'
    else
      bisectionLoop f tol maxIter fuel (i + 1) c b fc fb (some c) rows'

/-- `app.py` `bisection` (lines 17–42). -/
def bisection (f : ℚ → ℚ) (a b : ℚ) (max_iter : ℕ) (tol : ℚ) :
    Except Err (RunResult BisectRow) :=
  if f a * f b > 0 then .error .invalidBracket
  else bisectionLoop f tol max_iter max_iter 1 a b (f a) (f b) none []

/-- Loop of `app.py` `regula_falsi` (lines 51–70).  The candidate is
the false-position point `(a·fb − b·fa)/(fb − fa)`; a zero
denominator is Python's float `ZeroDivisionError`. -/
def regulaLoop (f : ℚ → ℚ) (tol : ℚ) (maxIter : ℕ) :
    ℕ → ℕ → ℚ → ℚ → ℚ → ℚ → Option ℚ → List BisectRow →
      Except Err (RunResult BisectRow)
  | 0, _, _, _, _, _, none, _ => .error .nameError
  | 0, _, _, _, _, _, some c, rows => .ok ⟨c, |f c|, maxIter, rows⟩
  | fuel + 1, i, a, b, fa, fb, cOld, rows =>
    if fb - fa = 0 then .error .divisionByZero
    else
      let c := (a * fb - b * fa) / (fb - fa)
      let fc := f c
      let rows' := rows ++ [(i, a, b, c, fc, prevErr cOld c)]
      if |fc| = 0 ∨ closeToPrev cOld c tol then
        .ok ⟨c, |fc|, i, rows'⟩
      else if fa * fc < 0 then
        regulaLoop f tol maxIter fuel (i + 1) a c fa fc (some c) rows'
      else
        regulaLoop f tol maxIter fuel (i + 1) c b fc fb (some c) rows'

/-- `app.py` `regula_falsi` (lines 45–70). -/
def regula_falsi (f : ℚ → ℚ) (a b : ℚ) (max_iter : ℕ) (tol : ℚ) :
    Except Err (RunResult BisectRow) :=
  if f a * f b > 0 then .error .invalidBracket
  else regulaLoop f tol max_iter max_iter 1 a b (f a) (f b) none []

/-- Loop of `app.py` `secant` (lines 75–91).  `last` carries the last
computed `x2` (after `x0, x1 = x1, x2` it equals the current `x1`);
Python returns it at exhaustion, and it is unbound if the body never
ran. -/
def secantLoop (f : ℚ → ℚ) (tol : ℚ) (maxIter : ℕ) :
    ℕ → ℕ → ℚ → ℚ → Option ℚ → List SecantRow →
      Except Err (RunResult SecantRow)
  | 0, _, _, _, none, _ => .error .nameError
  | 0, _, _, _, some x2, rows => .ok ⟨x2, |f x2|, maxIter, rows⟩
  | fuel + 1, i, x0, x1, _, rows =>
    let f0 := f x0
    let f1 := f x1
    if f1 - f0 = 0 then .error .degenerateStep
    else
      let x2 := x1 - f1 * (x1 - x0) / (f1 - f0)
      let f2 := f x2
      let err := |x2 - x1|
      let rows' := rows ++ [(i, x0, x1, x2, f2, err)]
      if |f2| = 0 ∨ err < tol then .ok ⟨x2, |f2|, i, rows'⟩
      else secantLoop f tol maxIter fuel (i + 1) x1 x2 (some x2) rows'

/-- `app.py` `secant` (lines 73–91). -/
def secant (f : ℚ → ℚ) (x0 x1 : ℚ) (max_iter : ℕ) (tol : ℚ) :
    Except Err (RunResult SecantRow) :=
  secantLoop f tol max_iter max_iter 1 x0 x1 none []

/-- Loop of `app.py` `newton_raphson` (lines 96–111).  `last` carries
the last computed `x1` (after `x0 = x1` it equals the current `x0`);
Python returns it at exhaustion. -/
def newtonLoop (f df : ℚ → ℚ) (tol : ℚ) (maxIter : ℕ) :
    ℕ → ℕ → ℚ → Option ℚ → List NewtonRow →
      Except Err (RunResult NewtonRow)
  | 0, _, _, none, _ => .error .nameError
  | 0, _, _, some x1, rows => .ok ⟨x1, |f x1|, maxIter, rows⟩
  | fuel + 1, i, x0, _, rows =>
    let fx := f x0
    let dfx := df x0
    if dfx = 0 then .error .zeroDerivative
    else
      let x1 := x0 - fx / dfx
      let err := |x1 - x0|
      let rows' := rows ++ [(i, x0, fx, dfx, x1, err)]
      if |fx| = 0 ∨ err < tol then .ok ⟨x1, |f x1|, i, rows'⟩
      else newtonLoop f df tol maxIter fuel (i + 1) x1 (some x1) rows'

/-- `app.py` `newton_raphson` (lines 94–111). -/
def newton_raphson (f df : ℚ → ℚ) (x0 : ℚ) (max_iter : ℕ) (tol : ℚ) :
    Except Err (RunResult NewtonRow) :=
  newtonLoop f df tol max_iter max_iter 1 x0 none []

/-- Loop of `app.py` `fixed_point_iteration` (lines 116–126).  `last`
carries the last computed `(x1, err)`; Python returns both at
exhaustion. -/
def fixedLoop (g : ℚ → ℚ) (tol : ℚ) (maxIter : ℕ) :
    ℕ → ℕ → ℚ → Option (ℚ × ℚ) → List FixedRow →
      Except Err (RunResult FixedRow)
  | 0, _, _, none, _ => .error .nameError
  | 0, _, _, some (x1, err), rows => .ok ⟨x1, err, maxIter, rows⟩
  | fuel + 1, i, x0, _, rows =>
    let x1 := g x0
    let err := |x1 - x0|
    let rows' := rows ++ [(i, x0, x1, err)]
    if err < tol then .ok ⟨x1, err, i, rows'⟩
    else fixedLoop g tol maxIter fuel (i + 1) x1 (some (x1, err)) rows'

/-- `app.py` `fixed_point_iteration` (lines 114–126). -/
def fixed_point_iteration (g_func : ℚ → ℚ) (x0 : ℚ) (max_iter : ℕ)
    (tol : ℚ) : Except Err (RunResult FixedRow) :=
  fixedLoop g_func tol max_iter max_iter 1 x0 none []

/-- Loop of `app.py` `modified_secant` (lines 131–146). -/
def modSecLoop (f : ℚ → ℚ) (delta tol : ℚ) (maxIter : ℕ) :
    ℕ → ℕ → ℚ → Option ℚ → List ModSecRow →
      Except Err (RunResult ModSecRow)
  | 0, _, _, none, _ => .error .nameError
  | 0, _, _, some x1, rows => .ok ⟨x1, |f x1|, maxIter, rows⟩
  | fuel + 1, i, x0, _, rows =>
    let fx := f x0
    let denom := f (x0 + delta * x0) - fx
    if denom = 0 then .error .degenerateStep
    else
      let x1 := x0 - delta * x0 * fx / denom
      let err := |x1 - x0|
      let rows' := rows ++ [(i, x0, fx, x1, err)]
      if err < tol then .ok ⟨x1, |f x1|, i, rows'⟩
      else modSecLoop f delta tol maxIter fuel (i + 1) x1 (some x1) rows'

/-- `app.py` `modified_secant` (lines 129–146). -/
def modified_secant (f : ℚ → ℚ) (x0 delta : ℚ) (max_iter : ℕ)
    (tol : ℚ) : Except Err (RunResult ModSecRow) :=
  modSecLoop f delta tol max_iter max_iter 1 x0 none []

end App

namespace CLI

/-- Loop of `ZOF_CLI.py` `bisection` (lines 45–60): same state as the
`app.py` loop but no trace accumulator (the CLI prints each row). -/
def bisectionLoop (f : ℚ → ℚ) (tol : ℚ) (maxIter : ℕ) :
    ℕ → ℕ → ℚ → ℚ → ℚ → ℚ → Option ℚ → Except Err (ℚ × ℚ × ℕ)
  | 0, _, _, _, _, _, none => .error .nameError
  | 0, _, _, _, _, _, some c => .ok (c, |f c|, maxIter)
  | fuel + 1, i, a, b, fa, fb, cOld =>
    let c := (1 / 2 : ℚ) * (a + b)
    let fc := f c
    if |fc| = 0 ∨ closeToPrev cOld c tol ∨ |b - a| / 2 < tol then
      .ok (c, |fc|, i)
    else if fa * fc < 0 then
      bisectionLoop f tol maxIter fuel (i + 1) a c fa fc (some c)
    else
      bisectionLoop f tol maxIter fuel (i + 1) c b fc fb (some c)

/-- `ZOF_CLI.py` `bisection` (lines 40–60). -/
def bisection (f : ℚ → ℚ) (a b : ℚ) (max_iter : ℕ) (tol : ℚ) :
    Except Err (ℚ × ℚ × ℕ) :=
  if f a * f b > 0 then .error .invalidBracket
  else bisectionLoop f tol max_iter max_iter 1 a b (f a) (f b) none

/-- Loop of `ZOF_CLI.py` `regula_falsi` (lines 67–83).  Unlike
`app.py`, the CLI initialises `c = a` before the loop (line 68), so
exhaustion with zero passes returns `a` instead of failing; `cVal`
carries that always-bound `c`. -/
def regulaLoop (f : ℚ → ℚ) (tol : ℚ) (maxIter : ℕ) :
    ℕ → ℕ → ℚ → ℚ → ℚ → ℚ → ℚ → Option ℚ → Except Err (ℚ × ℚ × ℕ)
  | 0, _, _, _, _, _, cVal, _ => .ok (cVal, |f cVal|, maxIter)
  | fuel + 1, i, a, b, fa, fb, _, cOld =>
    if fb - fa = 0 then .error .divisionByZero
    else
      let c := (a * fb - b * fa) / (fb - fa)
      let fc := f c
      if |fc| = 0 ∨ closeToPrev cOld c tol then
        .ok (c, |fc|, i)
      else if fa * fc < 0 then
        regulaLoop f tol maxIter fuel (i + 1) a c fa fc c (some c)
      else
        regulaLoop f tol maxIter fuel (i + 1) c b fc fb c (some c)

/-- `ZOF_CLI.py` `regula_falsi` (lines 62–83). -/
def regula_falsi (f : ℚ → ℚ) (a b : ℚ) (max_iter : ℕ) (tol : ℚ) :
    Except Err (ℚ × ℚ × ℕ) :=
  if f a * f b > 0 then .error .invalidBracket
  else regulaLoop f tol max_iter max_iter 1 a b (f a) (f b) a none

/-- Loop of `ZOF_CLI.py` `secant` (lines 87–98); the explicit
`ZeroDivisionError` raise on line 90 is `divisionByZero`. -/
def secantLoop (f : ℚ → ℚ) (tol : ℚ) (maxIter : ℕ) :
    ℕ → ℕ → ℚ → ℚ → Option ℚ → Except Err (ℚ × ℚ × ℕ)
  | 0, _, _, _, none => .error .nameError
  | 0, _, _, _, some x2 => .ok (x2, |f x2|, maxIter)
  | fuel + 1, i, x0, x1, _ =>
    let f0 := f x0
    let f1 := f x1
    if f1 - f0 = 0 then .error .divisionByZero
    else
      let x2 := x1 - f1 * (x1 - x0) / (f1 - f0)
      let f2 := f x2
      let err := |x2 - x1|
      if |f2| = 0 ∨ err < tol then .ok (x2, |f2|, i)
      else secantLoop f tol maxIter fuel (i + 1) x1 x2 (some x2)

/-- `ZOF_CLI.py` `secant` (lines 85–98). -/
def secant (f : ℚ → ℚ) (x0 x1 : ℚ) (max_iter : ℕ) (tol : ℚ) :
    Except Err (ℚ × ℚ × ℕ) :=
  secantLoop f tol max_iter max_iter 1 x0 x1 none

/-- Loop of `ZOF_CLI.py` `newton_raphson` (lines 102–112); the
explicit `ZeroDivisionError` raise on line 105 is `divisionByZero`. -/
def newtonLoop (f df : ℚ → ℚ) (tol : ℚ) (maxIter : ℕ) :
    ℕ → ℕ → ℚ → Option ℚ → Except Err (ℚ × ℚ × ℕ)
  | 0, _, _, none => .error .nameError
  | 0, _, _, some x1 => .ok (x1, |f x1|, maxIter)
  | fuel + 1, i, x0, _ =>
    let fx := f x0
    let dfx := df x0
    if dfx = 0 then .error .divisionByZero
    else
      let x1 := x0 - fx / dfx
      let err := |x1 - x0|
      if |fx| = 0 ∨ err < tol then .ok (x1, |f x1|, i)
      else newtonLoop f df tol maxIter fuel (i + 1) x1 (some x1)

/-- `ZOF_CLI.py` `newton_raphson` (lines 100–112). -/
def newton_raphson (f df : ℚ → ℚ) (x0 : ℚ) (max_iter : ℕ) (tol : ℚ) :
    Except Err (ℚ × ℚ × ℕ) :=
  newtonLoop f df tol max_iter max_iter 1 x0 none

/-- Loop of `ZOF_CLI.py` `fixed_point_iteration` (lines 116–123). -/
def fixedLoop (g : ℚ → ℚ) (tol : ℚ) (maxIter : ℕ) :
    ℕ → ℕ → ℚ → Option (ℚ × ℚ) → Except Err (ℚ × ℚ × ℕ)
  | 0, _, _, none => .error .nameError
  | 0, _, _, some (x1, err) => .ok (x1, err, maxIter)
  | fuel + 1, i, x0, _ =>
    let x1 := g x0
    let err := |x1 - x0|
    if err < tol then .ok (x1, err, i)
    else fixedLoop g tol maxIter fuel (i + 1) x1 (some (x1, err))

/-- `ZOF_CLI.py` `fixed_point_iteration` (lines 114–123). -/
def fixed_point_iteration (g_func : ℚ → ℚ) (x0 : ℚ) (max_iter : ℕ)
    (tol : ℚ) : Except Err (ℚ × ℚ × ℕ) :=
  fixedLoop g_func tol max_iter max_iter 1 x0 none

/-- Loop of `ZOF_CLI.py` `modified_secant` (lines 127–135).  The CLI
has no explicit denominator check: line 129 divides directly, so a
zero denominator is Python's implicit float `ZeroDivisionError`. -/
def modSecLoop (f : ℚ → ℚ) (delta tol : ℚ) (maxIter : ℕ) :
    ℕ → ℕ → ℚ → Option ℚ → Except Err (ℚ × ℚ × ℕ)
  | 0, _, _, none => .error .nameError
  | 0, _, _, some x1 => .ok (x1, |f x1|, maxIter)
  | fuel + 1, i, x0, _ =>
    let f_x0 := f x0
    if f (x0 + delta * x0) - f_x0 = 0 then .error .divisionByZero
    else
      let x1 := x0 - delta * x0 * f_x0 / (f (x0 + delta * x0) - f_x0)
      let err := |x1 - x0|
      if err < tol then .ok (x1, |f x1|, i)
      else modSecLoop f delta tol maxIter fuel (i + 1) x1 (some x1)

/-- `ZOF_CLI.py` `modified_secant` (lines 125–135). -/
def modified_secant (f : ℚ → ℚ) (x0 delta : ℚ) (max_iter : ℕ)
    (tol : ℚ) : Except Err (ℚ × ℚ × ℕ) :=
  modSecLoop f delta tol max_iter max_iter 1 x0 none

end CLI

/-- Forget the trace and the error identity of an `app.py` outcome,
keeping `(root, final_err, iters)` — the observables both call sites
share. -/
def summary {ρ : Type} : Except Err (RunResult ρ) → Except Unit (ℚ × ℚ × ℕ)
  | .ok r => .ok (r.root, r.residual, r.iters)
  | .error _ => .error ()

/-- Forget the error identity of a `ZOF_CLI.py` outcome. -/
def cliSummary : Except Err (ℚ × ℚ × ℕ) → Except Unit (ℚ × ℚ × ℕ)
  | .ok r => .ok r
  | .error _ => .error ()

/-! ## No code path performs configuration validation

Each loop's error outcomes are exhaustively `nameError` plus the
method's own degenerate cases; `invalidConfiguration` is unreachable. -/

theorem bisectionLoop_ne_invCfg (f : ℚ → ℚ) (tol : ℚ) (maxIter : ℕ) :
    ∀ fuel i a b fa fb cOld rows,
      App.bisectionLoop f tol maxIter fuel i a b fa fb cOld rows ≠
        .error .invalidConfiguration := by
  intro fuel
  induction fuel with
  | zero => intro i a b fa fb cOld rows; cases cOld <;> simp [App.bisectionLoop]
  | succ n ih =>
    intro i a b fa fb cOld rows
    simp only [App.bisectionLoop]
    split_ifs <;> first | apply ih | simp

theorem regulaLoop_ne_invCfg (f : ℚ → ℚ) (tol : ℚ) (maxIter : ℕ) :
    ∀ fuel i a b fa fb cOld rows,
      App.regulaLoop f tol maxIter fuel i a b fa fb cOld rows ≠
        .error .invalidConfiguration := by
  intro fuel
  induction fuel with
  | zero => intro i a b fa fb cOld rows; cases cOld <;> simp [App.regulaLoop]
  | succ n ih =>
    intro i a b fa fb cOld rows
    simp only [App.regulaLoop]
    split_ifs <;> first | apply ih | simp

theorem secantLoop_ne_invCfg (f : ℚ → ℚ) (tol : ℚ) (maxIter : ℕ) :
    ∀ fuel i x0 x1 last rows,
      App.secantLoop f tol maxIter fuel i x0 x1 last rows ≠
        .error .invalidConfiguration := by
  intro fuel
  induction fuel with
  | zero => intro i x0 x1 last rows; cases last <;> simp [App.secantLoop]
  | succ n ih =>
    intro i x0 x1 last rows
    simp only [App.secantLoop]
    split_ifs <;> first | apply ih | simp

theorem newtonLoop_ne_invCfg (f df : ℚ → ℚ) (tol : ℚ) (maxIter : ℕ) :
    ∀ fuel i x0 last rows,
      App.newtonLoop f df tol maxIter fuel i x0 last rows ≠
        .error .invalidConfiguration := by
  intro fuel
  induction fuel with
  | zero => intro i x0 last rows; cases last <;> simp [App.newtonLoop]
  | succ n ih =>
    intro i x0 last rows
    simp only [App.newtonLoop]
    split_ifs <;> first | apply ih | simp

theorem fixedLoop_ne_invCfg (g : ℚ → ℚ) (tol : ℚ) (maxIter : ℕ) :
    ∀ fuel i x0 last rows,
      App.fixedLoop g tol maxIter fuel i x0 last rows ≠
        .error .invalidConfiguration := by
  intro fuel
  induction fuel with
  | zero =>
    intro i x0 last rows
    match last with
    | none => simp [App.fixedLoop]
    | some (x1, err) => simp [App.fixedLoop]
  | succ n ih =>
    intro i x0 last rows
    simp only [App.fixedLoop]
    split_ifs <;> first | apply ih | simp

theorem modSecLoop_ne_invCfg (f : ℚ → ℚ) (delta tol : ℚ) (maxIter : ℕ) :
    ∀ fuel i x0 last rows,
      App.modSecLoop f delta tol maxIter fuel i x0 last rows ≠
        .error .invalidConfiguration := by
  intro fuel
  induction fuel with
  | zero => intro i x0 last rows; cases last <;> simp [App.modSecLoop]
  | succ n ih =>
    intro i x0 last rows
    simp only [App.modSecLoop]
    split_ifs <;> first | apply ih | simp

theorem cli_bisectionLoop_ne_invCfg (f : ℚ → ℚ) (tol : ℚ) (maxIter : ℕ) :
    ∀ fuel i a b fa fb cOld,
      CLI.bisectionLoop f tol maxIter fuel i a b fa fb cOld ≠
        .error .invalidConfiguration := by
  intro fuel
  induction fuel with
  | zero => intro i a b fa fb cOld; cases cOld <;> simp [CLI.bisectionLoop]
  | succ n ih =>
    intro i a b fa fb cOld
    simp only [CLI.bisectionLoop]
    split_ifs <;> first | apply ih | simp

theorem cli_regulaLoop_ne_invCfg (f : ℚ → ℚ) (tol : ℚ) (maxIter : ℕ) :
    ∀ fuel i a b fa fb cVal cOld,
      CLI.regulaLoop f tol maxIter fuel i a b fa fb cVal cOld ≠
        .error .invalidConfiguration := by
  intro fuel
  induction fuel with
  | zero => intro i a b fa fb cVal cOld; simp [CLI.regulaLoop]
  | succ n ih =>
    intro i a b fa fb cVal cOld
    simp only [CLI.regulaLoop]
    split_ifs <;> first | apply ih | simp

theorem cli_secantLoop_ne_invCfg (f : ℚ → ℚ) (tol : ℚ) (maxIter : ℕ) :
    ∀ fuel i x0 x1 last,
      CLI.secantLoop f tol maxIter fuel i x0 x1 last ≠
        .error .invalidConfiguration := by
  intro fuel
  induction fuel with
  | zero => intro i x0 x1 last; cases last <;> simp [CLI.secantLoop]
  | succ n ih =>
    intro i x0 x1 last
    simp only [CLI.secantLoop]
    split_ifs <;> first | apply ih | simp

theorem cli_newtonLoop_ne_invCfg (f df : ℚ → ℚ) (tol : ℚ) (maxIter : ℕ) :
    ∀ fuel i x0 last,
      CLI.newtonLoop f df tol maxIter fuel i x0 last ≠
        .error .invalidConfiguration := by
  intro fuel
  induction fuel with
  | zero => intro i x0 last; cases last <;> simp [CLI.newtonLoop]
  | succ n ih =>
    intro i x0 last
    simp only [CLI.newtonLoop]
    split_ifs <;> first | apply ih | simp

theorem cli_fixedLoop_ne_invCfg (g : ℚ → ℚ) (tol : ℚ) (maxIter : ℕ) :
    ∀ fuel i x0 last,
      CLI.fixedLoop g tol maxIter fuel i x0 last ≠
        .error .invalidConfiguration := by
  intro fuel
  induction fuel with
  | zero =>
    intro i x0 last
    match last with
    | none => simp [CLI.fixedLoop]
    | some (x1, err) => simp [CLI.fixedLoop]
  | succ n ih =>
    intro i x0 last
    simp only [CLI.fixedLoop]
    split_ifs <;> first | apply ih | simp

theorem cli_modSecLoop_ne_invCfg (f : ℚ → ℚ) (delta tol : ℚ) (maxIter : ℕ) :
    ∀ fuel i x0 last,
      CLI.modSecLoop f delta tol maxIter fuel i x0 last ≠
        .error .invalidConfiguration := by
  intro fuel
  induction fuel with
  | zero => intro i x0 last; cases last <;> simp [CLI.modSecLoop]
  | succ n ih =>
    intro i x0 last
    simp only [CLI.modSecLoop]
    split_ifs <;> first | apply ih | simp

/-- C1, counterexample.  The claim says a negative `tol` makes every
method fail with `InvalidConfigurationError` before anything else.  At
`f = id`, bracket `(-1, 1)`, `max_iter = 1`, `tol = -1 < 0`, `app.py`'s
bisection performs no such check: it runs its iteration and returns a
successful result (midpoint `0`, exact root), so in particular it does
not fail with `invalidConfiguration`. -/
theorem C1_counterexample :
    App.bisection (fun t => t) (-1) 1 1 (-1) =
      .ok ⟨0, 0, 1, [(1, -1, 1, 0, 0, none)]⟩ ∧
    App.bisection (fun t => t) (-1) 1 1 (-1) ≠
      .error .invalidConfiguration := by
  constructor
  · simp only [App.bisection, App.bisectionLoop, closeToPrev, prevErr]
    norm_num
  · simp only [App.bisection, App.bisectionLoop, closeToPrev, prevErr]
    norm_num
    simp

/-- C1, amended.  Neither implementation validates `max_iter` or `tol`:
no code path in either file raises `InvalidConfigurationError`, for any
arguments whatsoever (non-positive `max_iter` and negative `tol`
included).  A negative `tol` simply makes the tolerance tests
unsatisfiable, and `max_iter = 0` surfaces as `nameError` (an unbound
Python local) or, for the CLI regula falsi, a silent return of `a`. -/
theorem C1_amended_no_config_validation (f df g : ℚ → ℚ)
    (a b x0 x1 delta : ℚ) (max_iter : ℕ) (tol : ℚ) :
    App.bisection f a b max_iter tol ≠ .error .invalidConfiguration ∧
    App.regula_falsi f a b max_iter tol ≠ .error .invalidConfiguration ∧
    App.secant f x0 x1 max_iter tol ≠ .error .invalidConfiguration ∧
    App.newton_raphson f df x0 max_iter tol ≠ .error .invalidConfiguration ∧
    App.fixed_point_iteration g x0 max_iter tol ≠ .error .invalidConfiguration ∧
    App.modified_secant f x0 delta max_iter tol ≠ .error .invalidConfiguration ∧
    CLI.bisection f a b max_iter tol ≠ .error .invalidConfiguration ∧
    CLI.regula_falsi f a b max_iter tol ≠ .error .invalidConfiguration ∧
    CLI.secant f x0 x1 max_iter tol ≠ .error .invalidConfiguration ∧
    CLI.newton_raphson f df x0 max_iter tol ≠ .error .invalidConfiguration ∧
    CLI.fixed_point_iteration g x0 max_iter tol ≠ .error .invalidConfiguration ∧
    CLI.modified_secant f x0 delta max_iter tol ≠ .error .invalidConfiguration := by
  refine ⟨?_, ?_, ?_, ?_, ?_, ?_, ?_, ?_, ?_, ?_, ?_, ?_⟩
  · unfold App.bisection
    split_ifs
    · simp
    · apply bisectionLoop_ne_invCfg
  · unfold App.regula_falsi
    split_ifs
    · simp
    · apply regulaLoop_ne_invCfg
  · apply secantLoop_ne_invCfg
  · apply newtonLoop_ne_invCfg
  · apply fixedLoop_ne_invCfg
  · apply modSecLoop_ne_invCfg
  · unfold CLI.bisection
    split_ifs
    · simp
    · apply cli_bisectionLoop_ne_invCfg
  · unfold CLI.regula_falsi
    split_ifs
    · simp
    · apply cli_regulaLoop_ne_invCfg
  · apply cli_secantLoop_ne_invCfg
  · apply cli_newtonLoop_ne_invCfg
  · apply cli_fixedLoop_ne_invCfg
  · apply cli_modSecLoop_ne_invCfg

/-- C1, witness for the amended theorem: instantiated at concrete
inputs with `max_iter = 0` and `tol = -1`, i.e. exactly the
configurations the original claim said must be rejected. -/
theorem C1_amended_witness :
    App.bisection (fun t => t) (-1) 1 0 (-1) ≠
      .error .invalidConfiguration ∧
    CLI.modified_secant (fun t => t) 1 1 0 (-1) ≠
      .error .invalidConfiguration :=
  ⟨(C1_amended_no_config_validation (fun t => t) (fun t => t) (fun t => t)
      (-1) 1 1 1 1 0 (-1)).1,
   (C1_amended_no_config_validation (fun t => t) (fun t => t) (fun t => t)
      (-1) 1 1 1 1 0 (-1)).2.2.2.2.2.2.2.2.2.2.2⟩

/-- C10.  With initial guess `x0 = 0`, Modified Secant's perturbed
point `x0 + delta·x0` equals `x0` for every `delta`, so the
denominator `f(x0 + delta·x0) − f(x0)` is exactly zero and the first
iteration raises the zero-denominator error for every evaluator,
`delta`, `tol` and `max_iter ≥ 1`: `app.py` raises its explicit
`ValueError` (`degenerateStep`), `ZOF_CLI.py` hits Python's implicit
`ZeroDivisionError` (`divisionByZero`).  No result is ever returned. -/
theorem C10_modified_secant_zero_guess (f : ℚ → ℚ) (delta tol : ℚ)
    (max_iter : ℕ) (h : 1 ≤ max_iter) :
    App.modified_secant f 0 delta max_iter tol = .error .degenerateStep ∧
    CLI.modified_secant f 0 delta max_iter tol = .error .divisionByZero := by
  obtain ⟨n, rfl⟩ : ∃ n, max_iter = n + 1 :=
    ⟨max_iter - 1, (Nat.succ_pred_eq_of_pos h).symm⟩
  constructor
  · simp [App.modified_secant, App.modSecLoop]
  · simp [CLI.modified_secant, CLI.modSecLoop]

/-- C10, witness: `f = id`, `delta = 1/1000`, `tol = 1/100`,
`max_iter = 25`. -/
theorem C10_witness :
    App.modified_secant (fun t => t) 0 (1 / 1000) 25 (1 / 100) =
      .error .degenerateStep ∧
    CLI.modified_secant (fun t => t) 0 (1 / 1000) 25 (1 / 100) =
      .error .divisionByZero :=
  C10_modified_secant_zero_guess (fun t => t) (1 / 1000) (1 / 100) 25
    (by norm_num)

/-- C8.  Whenever the required denominator is exactly zero at the
iteration about to run — `f(x1)−f(x0)` for Secant, the derivative
`df(x0)` for Newton-Raphson, `f(x0+delta·x0)−f(x0)` for Modified
Secant — the loop returns the specified error immediately.  The first
three conjuncts quantify over arbitrary loop states with at least one
pass of fuel left, so they cover the zero denominator arising at any
iteration; the last three are the whole-run statements for a
first-iteration zero denominator.  The error constructors carry no
payload: a failed run yields no root and no partial trace. -/
theorem C8_degenerate_denominator (f df : ℚ → ℚ) (tol delta : ℚ)
    (maxIter fuel i : ℕ) (x0 x1 : ℚ) (lastS lastN lastM : Option ℚ)
    (rowsS : List SecantRow) (rowsN : List NewtonRow)
    (rowsM : List ModSecRow) :
    (f x1 - f x0 = 0 →
      App.secantLoop f tol maxIter (fuel + 1) i x0 x1 lastS rowsS =
        .error .degenerateStep) ∧
    (df x0 = 0 →
      App.newtonLoop f df tol maxIter (fuel + 1) i x0 lastN rowsN =
        .error .zeroDerivative) ∧
    (f (x0 + delta * x0) - f x0 = 0 →
      App.modSecLoop f delta tol maxIter (fuel + 1) i x0 lastM rowsM =
        .error .degenerateStep) ∧
    (1 ≤ maxIter → f x1 - f x0 = 0 →
      App.secant f x0 x1 maxIter tol = .error .degenerateStep) ∧
    (1 ≤ maxIter → df x0 = 0 →
      App.newton_raphson f df x0 maxIter tol = .error .zeroDerivative) ∧
    (1 ≤ maxIter → f (x0 + delta * x0) - f x0 = 0 →
      App.modified_secant f x0 delta maxIter tol =
        .error .degenerateStep) := by
  refine ⟨?_, ?_, ?_, ?_, ?_, ?_⟩
  · intro h; simp [App.secantLoop, h]
  · intro h; simp [App.newtonLoop, h]
  · intro h; simp [App.modSecLoop, h]
  · intro hm h
    obtain ⟨n, rfl⟩ : ∃ n, maxIter = n + 1 :=
      ⟨maxIter - 1, (Nat.succ_pred_eq_of_pos hm).symm⟩
    simp [App.secant, App.secantLoop, h]
  · intro hm h
    obtain ⟨n, rfl⟩ : ∃ n, maxIter = n + 1 :=
      ⟨maxIter - 1, (Nat.succ_pred_eq_of_pos hm).symm⟩
    simp [App.newton_raphson, App.newtonLoop, h]
  · intro hm h
    obtain ⟨n, rfl⟩ : ∃ n, maxIter = n + 1 :=
      ⟨maxIter - 1, (Nat.succ_pred_eq_of_pos hm).symm⟩
    simp [App.modified_secant, App.modSecLoop, h]

/-- C8, witness: a constant evaluator makes every denominator zero,
and the derivative `fun _ => 0` is zero; instantiated at iteration 3
of a hypothetical longer run and at whole runs with `max_iter = 7`. -/
theorem C8_witness :
    App.secantLoop (fun _ => 2) (1 / 10) 9 5 3 4 7 none [] =
      .error .degenerateStep ∧
    App.newtonLoop (fun t => t) (fun _ => 0) (1 / 10) 9 5 3 4 none [] =
      .error .zeroDerivative ∧
    App.modified_secant (fun _ => 2) 4 (1 / 2) 7 (1 / 10) =
      .error .degenerateStep := by
  refine ⟨?_, ?_, ?_⟩
  · exact (C8_degenerate_denominator (fun _ => 2) (fun _ => 0) (1 / 10)
      (1 / 2) 9 4 3 4 7 none none none [] [] []).1 (by norm_num)
  · exact (C8_degenerate_denominator (fun t => t) (fun _ => 0) (1 / 10)
      (1 / 2) 9 4 3 4 7 none none none [] [] []).2.1 rfl
  · exact (C8_degenerate_denominator (fun _ => 2) (fun _ => 0) (1 / 10)
      (1 / 2) 7 4 3 4 7 none none none [] [] []).2.2.2.2.2 (by norm_num)
      (by norm_num)

/-- C6.  Newton-Raphson tests `f(x0)` (the residual at the old point)
before the step: whenever `f(x0) = 0` and `df(x0) ≠ 0`, the run
returns at iteration 1 with root `x0`, reported residual `0`, and the
single trace row `(1, x0, 0, df x0, x0, 0)` — the step computes
`x1 = x0 - 0/df(x0) = x0`, and the check fires on the pre-step
residual. -/
theorem C6_newton_pre_step_residual (f df : ℚ → ℚ) (x0 : ℚ)
    (max_iter : ℕ) (tol : ℚ) (h1 : 1 ≤ max_iter) (hf : f x0 = 0)
    (hdf : df x0 ≠ 0) :
    App.newton_raphson f df x0 max_iter tol =
      .ok ⟨x0, 0, 1, [(1, x0, 0, df x0, x0, 0)]⟩ := by
  obtain ⟨n, rfl⟩ : ∃ n, max_iter = n + 1 :=
    ⟨max_iter - 1, (Nat.succ_pred_eq_of_pos h1).symm⟩
  simp [App.newton_raphson, App.newtonLoop, hf, hdf]

/-- C6, witness: the claim's concrete scenario `f(x) = x − 1`,
`x0 = 1` — the run returns immediately with iteration count 1,
root 1 and residual 0. -/
theorem C6_witness :
    App.newton_raphson (fun t => t - 1) (fun _ => 1) 1 50 (1 / 1000000) =
      .ok ⟨1, 0, 1, [(1, 1, 0, 1, 1, 0)]⟩ :=
  C6_newton_pre_step_residual (fun t => t - 1) (fun _ => 1) 1 50
    (1 / 1000000) (by norm_num) (by norm_num) (by norm_num)

/-! ## Trace invariants

Candidate projections pick the per-row column holding the method's
root candidate (`c`, `x2`, `x1`, `x1`, `x1` respectively); each loop
lemma carries the three facts that hold at every entry into the loop
head: remaining fuel plus rows so far equals `max_iter`, the 1-based
index is `rows.length + 1`, and the Python locals surviving from the
previous pass are exactly the data of the last accumulated row. -/

/-- Candidate column `c` of a bisection / regula-falsi trace row. -/
def bisectCand (t : BisectRow) : ℚ := t.2.2.2.1

/-- Candidate column `x2` of a secant trace row. -/
def secantCand (t : SecantRow) : ℚ := t.2.2.2.1

/-- Candidate column `x1` of a newton trace row. -/
def newtonCand (t : NewtonRow) : ℚ := t.2.2.2.2.1

/-- Candidate column `x1` of a fixed-point trace row. -/
def fixedCand (t : FixedRow) : ℚ := t.2.2.1

/-- Error column of a fixed-point trace row. -/
def fixedErr (t : FixedRow) : ℚ := t.2.2.2

/-- The `(x1, err)` pair of a fixed-point trace row — the Python
locals alive after the row's pass. -/
def fixedLast (t : FixedRow) : ℚ × ℚ := (t.2.2.1, t.2.2.2)

/-- Candidate column `x1` of a modified-secant trace row. -/
def modSecCand (t : ModSecRow) : ℚ := t.2.2.2.1

theorem bisectionLoop_trace_inv (f : ℚ → ℚ) (tol : ℚ) (maxIter : ℕ) :
    ∀ fuel i a b fa fb rows r,
      fuel + rows.length = maxIter →
      i = rows.length + 1 →
      App.bisectionLoop f tol maxIter fuel i a b fa fb
          (rows.getLast?.map bisectCand) rows = .ok r →
      r.rows.length = r.iters ∧
        r.rows.getLast?.map bisectCand = some r.root := by
  intro fuel
  induction fuel with
  | zero =>
    intro i a b fa fb rows r hfuel hi h
    cases hg : rows.getLast? with
    | none => rw [hg] at h; simp [App.bisectionLoop] at h
    | some t =>
      rw [hg] at h
      simp only [Option.map_some', App.bisectionLoop] at h
      obtain rfl := Except.ok.inj h
      exact ⟨by simp; omega, by simp [hg]⟩
  | succ n ih =>
    intro i a b fa fb rows r hfuel hi h
    simp only [App.bisectionLoop] at h
    split_ifs at h with h1 h2
    · obtain rfl := Except.ok.inj h
      constructor
      · simp [hi]
      · simp [List.getLast?_concat, bisectCand]
    · refine ih (i + 1) a ((1/2 : ℚ) * (a + b)) fa (f ((1/2 : ℚ) * (a + b)))
        (rows ++ [(i, a, b, (1/2 : ℚ) * (a + b), f ((1/2 : ℚ) * (a + b)),
          prevErr (rows.getLast?.map bisectCand) ((1/2 : ℚ) * (a + b)))]) r
        (by simp; omega) (by simp [hi]) ?_
      rw [List.getLast?_concat]
      simpa [bisectCand] using h
    · refine ih (i + 1) ((1/2 : ℚ) * (a + b)) b (f ((1/2 : ℚ) * (a + b))) fb
        (rows ++ [(i, a, b, (1/2 : ℚ) * (a + b), f ((1/2 : ℚ) * (a + b)),
          prevErr (rows.getLast?.map bisectCand) ((1/2 : ℚ) * (a + b)))]) r
        (by simp; omega) (by simp [hi]) ?_
      rw [List.getLast?_concat]
      simpa [bisectCand] using h

theorem regulaLoop_trace_inv (f : ℚ → ℚ) (tol : ℚ) (maxIter : ℕ) :
    ∀ fuel i a b fa fb rows r,
      fuel + rows.length = maxIter →
      i = rows.length + 1 →
      App.regulaLoop f tol maxIter fuel i a b fa fb
          (rows.getLast?.map bisectCand) rows = .ok r →
      r.rows.length = r.iters ∧
        r.rows.getLast?.map bisectCand = some r.root := by
  intro fuel
  induction fuel with
  | zero =>
    intro i a b fa fb rows r hfuel hi h
    cases hg : rows.getLast? with
    | none => rw [hg] at h; simp [App.regulaLoop] at h
    | some t =>
      rw [hg] at h
      simp only [Option.map_some', App.regulaLoop] at h
      obtain rfl := Except.ok.inj h
      exact ⟨by simp; omega, by simp [hg]⟩
  | succ n ih =>
    intro i a b fa fb rows r hfuel hi h
    simp only [App.regulaLoop] at h
    split_ifs at h with h0 h1 h2
    · obtain rfl := Except.ok.inj h
      constructor
      · simp [hi]
      · simp [List.getLast?_concat, bisectCand]
    · refine ih (i + 1) a ((a * fb - b * fa) / (fb - fa)) fa
        (f ((a * fb - b * fa) / (fb - fa)))
        (rows ++ [(i, a, b, (a * fb - b * fa) / (fb - fa),
          f ((a * fb - b * fa) / (fb - fa)),
          prevErr (rows.getLast?.map bisectCand)
            ((a * fb - b * fa) / (fb - fa)))]) r
        (by simp; omega) (by simp [hi]) ?_
      rw [List.getLast?_concat]
      simpa [bisectCand] using h
    · refine ih (i + 1) ((a * fb - b * fa) / (fb - fa)) b
        (f ((a * fb - b * fa) / (fb - fa))) fb
        (rows ++ [(i, a, b, (a * fb - b * fa) / (fb - fa),
          f ((a * fb - b * fa) / (fb - fa)),
          prevErr (rows.getLast?.map bisectCand)
            ((a * fb - b * fa) / (fb - fa)))]) r
        (by simp; omega) (by simp [hi]) ?_
      rw [List.getLast?_concat]
      simpa [bisectCand] using h

theorem secantLoop_trace_inv (f : ℚ → ℚ) (tol : ℚ) (maxIter : ℕ) :
    ∀ fuel i x0 x1 rows r,
      fuel + rows.length = maxIter →
      i = rows.length + 1 →
      App.secantLoop f tol maxIter fuel i x0 x1
          (rows.getLast?.map secantCand) rows = .ok r →
      r.rows.length = r.iters ∧
        r.rows.getLast?.map secantCand = some r.root := by
  intro fuel
  induction fuel with
  | zero =>
    intro i x0 x1 rows r hfuel hi h
    cases hg : rows.getLast? with
    | none => rw [hg] at h; simp [App.secantLoop] at h
    | some t =>
      rw [hg] at h
      simp only [Option.map_some', App.secantLoop] at h
      obtain rfl := Except.ok.inj h
      exact ⟨by simp; omega, by simp [hg]⟩
  | succ n ih =>
    intro i x0 x1 rows r hfuel hi h
    simp only [App.secantLoop] at h
    split_ifs at h with h0 h1
    · obtain rfl := Except.ok.inj h
      constructor
      · simp [hi]
      · simp [List.getLast?_concat, secantCand]
    · refine ih (i + 1) x1 (x1 - f x1 * (x1 - x0) / (f x1 - f x0))
        (rows ++ [(i, x0, x1, x1 - f x1 * (x1 - x0) / (f x1 - f x0),
          f (x1 - f x1 * (x1 - x0) / (f x1 - f x0)),
          |x1 - f x1 * (x1 - x0) / (f x1 - f x0) - x1|)]) r
        (by simp; omega) (by simp [hi]) ?_
      rw [List.getLast?_concat]
      simpa [secantCand] using h

theorem newtonLoop_trace_inv (f df : ℚ → ℚ) (tol : ℚ) (maxIter : ℕ) :
    ∀ fuel i x0 rows r,
      fuel + rows.length = maxIter →
      i = rows.length + 1 →
      App.newtonLoop f df tol maxIter fuel i x0
          (rows.getLast?.map newtonCand) rows = .ok r →
      r.rows.length = r.iters ∧
        r.rows.getLast?.map newtonCand = some r.root := by
  intro fuel
  induction fuel with
  | zero =>
    intro i x0 rows r hfuel hi h
    cases hg : rows.getLast? with
    | none => rw [hg] at h; simp [App.newtonLoop] at h
    | some t =>
      rw [hg] at h
      simp only [Option.map_some', App.newtonLoop] at h
      obtain rfl := Except.ok.inj h
      exact ⟨by simp; omega, by simp [hg]⟩
  | succ n ih =>
    intro i x0 rows r hfuel hi h
    simp only [App.newtonLoop] at h
    split_ifs at h with h0 h1
    · obtain rfl := Except.ok.inj h
      constructor
      · simp [hi]
      · simp [List.getLast?_concat, newtonCand]
    · refine ih (i + 1) (x0 - f x0 / df x0)
        (rows ++ [(i, x0, f x0, df x0, x0 - f x0 / df x0,
          |x0 - f x0 / df x0 - x0|)]) r
        (by simp; omega) (by simp [hi]) ?_
      rw [List.getLast?_concat]
      simpa [newtonCand] using h

theorem fixedLoop_trace_inv (g : ℚ → ℚ) (tol : ℚ) (maxIter : ℕ) :
    ∀ fuel i x0 rows r,
      fuel + rows.length = maxIter →
      i = rows.length + 1 →
      App.fixedLoop g tol maxIter fuel i x0
          (rows.getLast?.map fixedLast) rows = .ok r →
      r.rows.length = r.iters ∧
        r.rows.getLast?.map fixedCand = some r.root := by
  intro fuel
  induction fuel with
  | zero =>
    intro i x0 rows r hfuel hi h
    cases hg : rows.getLast? with
    | none => rw [hg] at h; simp [App.fixedLoop] at h
    | some t =>
      rw [hg] at h
      simp only [Option.map_some', fixedLast, App.fixedLoop] at h
      obtain rfl := Except.ok.inj h
      exact ⟨by simp; omega, by simp [hg, fixedCand]⟩
  | succ n ih =>
    intro i x0 rows r hfuel hi h
    simp only [App.fixedLoop] at h
    split_ifs at h with h1
    · obtain rfl := Except.ok.inj h
      constructor
      · simp [hi]
      · simp [List.getLast?_concat, fixedCand]
    · refine ih (i + 1) (g x0)
        (rows ++ [(i, x0, g x0, |g x0 - x0|)]) r
        (by simp; omega) (by simp [hi]) ?_
      rw [List.getLast?_concat]
      simpa [fixedLast] using h

theorem modSecLoop_trace_inv (f : ℚ → ℚ) (delta tol : ℚ) (maxIter : ℕ) :
    ∀ fuel i x0 rows r,
      fuel + rows.length = maxIter →
      i = rows.length + 1 →
      App.modSecLoop f delta tol maxIter fuel i x0
          (rows.getLast?.map modSecCand) rows = .ok r →
      r.rows.length = r.iters ∧
        r.rows.getLast?.map modSecCand = some r.root := by
  intro fuel
  induction fuel with
  | zero =>
    intro i x0 rows r hfuel hi h
    cases hg : rows.getLast? with
    | none => rw [hg] at h; simp [App.modSecLoop] at h
    | some t =>
      rw [hg] at h
      simp only [Option.map_some', App.modSecLoop] at h
      obtain rfl := Except.ok.inj h
      exact ⟨by simp; omega, by simp [hg]⟩
  | succ n ih =>
    intro i x0 rows r hfuel hi h
    simp only [App.modSecLoop] at h
    split_ifs at h with h0 h1
    · obtain rfl := Except.ok.inj h
      constructor
      · simp [hi]
      · simp [List.getLast?_concat, modSecCand]
    · refine ih (i + 1)
        (x0 - delta * x0 * f x0 / (f (x0 + delta * x0) - f x0))
        (rows ++ [(i, x0, f x0,
          x0 - delta * x0 * f x0 / (f (x0 + delta * x0) - f x0),
          |x0 - delta * x0 * f x0 / (f (x0 + delta * x0) - f x0) - x0|)]) r
        (by simp; omega) (by simp [hi]) ?_
      rw [List.getLast?_concat]
      simpa [modSecCand] using h

/-- C3.  For every method, every run of `app.py` that terminates
without an error — whether by convergence or by exhausting
`max_iter` — returns a trace whose length equals the returned
iteration count and whose final row stores, in its candidate column,
exactly the returned root estimate. -/
theorem C3_trace_length_and_final_candidate :
    (∀ f a b mi tol r, App.bisection f a b mi tol = .ok r →
      r.rows.length = r.iters ∧
        r.rows.getLast?.map bisectCand = some r.root) ∧
    (∀ f a b mi tol r, App.regula_falsi f a b mi tol = .ok r →
      r.rows.length = r.iters ∧
        r.rows.getLast?.map bisectCand = some r.root) ∧
    (∀ f x0 x1 mi tol r, App.secant f x0 x1 mi tol = .ok r →
      r.rows.length = r.iters ∧
        r.rows.getLast?.map secantCand = some r.root) ∧
    (∀ f df x0 mi tol r, App.newton_raphson f df x0 mi tol = .ok r →
      r.rows.length = r.iters ∧
        r.rows.getLast?.map newtonCand = some r.root) ∧
    (∀ g x0 mi tol r, App.fixed_point_iteration g x0 mi tol = .ok r →
      r.rows.length = r.iters ∧
        r.rows.getLast?.map fixedCand = some r.root) ∧
    (∀ f x0 delta mi tol r, App.modified_secant f x0 delta mi tol = .ok r →
      r.rows.length = r.iters ∧
        r.rows.getLast?.map modSecCand = some r.root) := by
  refine ⟨?_, ?_, ?_, ?_, ?_, ?_⟩
  · intro f a b mi tol r h
    unfold App.bisection at h
    split_ifs at h
    exact bisectionLoop_trace_inv f tol mi mi 1 a b (f a) (f b) [] r
      (by simp) (by simp) (by simpa using h)
  · intro f a b mi tol r h
    unfold App.regula_falsi at h
    split_ifs at h
    exact regulaLoop_trace_inv f tol mi mi 1 a b (f a) (f b) [] r
      (by simp) (by simp) (by simpa using h)
  · intro f x0 x1 mi tol r h
    exact secantLoop_trace_inv f tol mi mi 1 x0 x1 [] r
      (by simp) (by simp) (by simpa using h)
  · intro f df x0 mi tol r h
    exact newtonLoop_trace_inv f df tol mi mi 1 x0 [] r
      (by simp) (by simp) (by simpa using h)
  · intro g x0 mi tol r h
    exact fixedLoop_trace_inv g tol mi mi 1 x0 [] r
      (by simp) (by simp) (by simpa using h)
  · intro f x0 delta mi tol r h
    exact modSecLoop_trace_inv f delta tol mi mi 1 x0 [] r
      (by simp) (by simp) (by simpa using h)

/-- C3, witness: one concrete successful run per method, each
discharging the `= .ok r` hypothesis by evaluation. -/
theorem C3_witness :
    (∃ r, App.bisection (fun t => t) (-1) 1 2 0 = .ok r ∧
      r.rows.length = r.iters ∧
        r.rows.getLast?.map bisectCand = some r.root) ∧
    (∃ r, App.regula_falsi (fun t => t) (-1) 1 2 0 = .ok r ∧
      r.rows.length = r.iters ∧
        r.rows.getLast?.map bisectCand = some r.root) ∧
    (∃ r, App.secant (fun t => t) 2 1 2 0 = .ok r ∧
      r.rows.length = r.iters ∧
        r.rows.getLast?.map secantCand = some r.root) ∧
    (∃ r, App.newton_raphson (fun t => t) (fun _ => 1) 0 2 0 = .ok r ∧
      r.rows.length = r.iters ∧
        r.rows.getLast?.map newtonCand = some r.root) ∧
    (∃ r, App.fixed_point_iteration (fun _ => 0) 0 2 1 = .ok r ∧
      r.rows.length = r.iters ∧
        r.rows.getLast?.map fixedCand = some r.root) ∧
    (∃ r, App.modified_secant (fun t => t) 1 1 2 2 = .ok r ∧
      r.rows.length = r.iters ∧
        r.rows.getLast?.map modSecCand = some r.root) := by
  have h1 : App.bisection (fun t => t) (-1) 1 2 0 =
      .ok ⟨0, 0, 1, [(1, -1, 1, 0, 0, none)]⟩ := by
    simp only [App.bisection, App.bisectionLoop, closeToPrev, prevErr]
    norm_num
  have h2 : App.regula_falsi (fun t => t) (-1) 1 2 0 =
      .ok ⟨0, 0, 1, [(1, -1, 1, 0, 0, none)]⟩ := by
    simp only [App.regula_falsi, App.regulaLoop, closeToPrev, prevErr]
    norm_num
  have h3 : App.secant (fun t => t) 2 1 2 0 =
      .ok ⟨0, 0, 1, [(1, 2, 1, 0, 0, 1)]⟩ := by
    simp only [App.secant, App.secantLoop]
    norm_num
  have h4 : App.newton_raphson (fun t => t) (fun _ => 1) 0 2 0 =
      .ok ⟨0, 0, 1, [(1, 0, 0, 1, 0, 0)]⟩ := by
    simp only [App.newton_raphson, App.newtonLoop]
    norm_num
  have h5 : App.fixed_point_iteration (fun _ => 0) 0 2 1 =
      .ok ⟨0, 0, 1, [(1, 0, 0, 0)]⟩ := by
    simp only [App.fixed_point_iteration, App.fixedLoop]
    norm_num
  have h6 : App.modified_secant (fun t => t) 1 1 2 2 =
      .ok ⟨0, 0, 1, [(1, 1, 1, 0, 1)]⟩ := by
    simp only [App.modified_secant, App.modSecLoop]
    norm_num
  exact ⟨⟨_, h1, C3_trace_length_and_final_candidate.1 _ _ _ _ _ _ h1⟩,
    ⟨_, h2, C3_trace_length_and_final_candidate.2.1 _ _ _ _ _ _ h2⟩,
    ⟨_, h3, C3_trace_length_and_final_candidate.2.2.1 _ _ _ _ _ _ h3⟩,
    ⟨_, h4, C3_trace_length_and_final_candidate.2.2.2.1 _ _ _ _ _ _ h4⟩,
    ⟨_, h5, C3_trace_length_and_final_candidate.2.2.2.2.1 _ _ _ _ _ h5⟩,
    ⟨_, h6, C3_trace_length_and_final_candidate.2.2.2.2.2 _ _ _ _ _ _ h6⟩⟩

/-! ## Bisection width halving -/

theorem bisectionLoop_width_inv (f : ℚ → ℚ) (tol : ℚ) (maxIter : ℕ)
    (w0 : ℚ) :
    ∀ fuel i a b fa fb cOld rows r,
      1 ≤ i →
      |b - a| * 2 ^ (i - 1) = w0 →
      (∀ t ∈ rows, |t.2.2.1 - t.2.1| * 2 ^ (t.1 - 1) = w0) →
      App.bisectionLoop f tol maxIter fuel i a b fa fb cOld rows = .ok r →
      ∀ t ∈ r.rows, |t.2.2.1 - t.2.1| * 2 ^ (t.1 - 1) = w0 := by
  intro fuel
  induction fuel with
  | zero =>
    intro i a b fa fb cOld rows r hi hw hrows h
    cases cOld with
    | none => simp [App.bisectionLoop] at h
    | some c =>
      simp only [App.bisectionLoop] at h
      obtain rfl := Except.ok.inj h
      exact hrows
  | succ n ih =>
    intro i a b fa fb cOld rows r hi hw hrows h
    obtain ⟨j, rfl⟩ : ∃ j, i = j + 1 := ⟨i - 1, by omega⟩
    have hhalf : |(1 / 2 : ℚ) * (a + b) - a| = |b - a| / 2 := by
      rw [show (1 / 2 : ℚ) * (a + b) - a = (b - a) / 2 by ring]
      rw [abs_div]
      norm_num
    have hhalf' : |b - (1 / 2 : ℚ) * (a + b)| = |b - a| / 2 := by
      rw [show b - (1 / 2 : ℚ) * (a + b) = (b - a) / 2 by ring]
      rw [abs_div]
      norm_num
    have hrows' : ∀ t ∈ rows ++ [(j + 1, a, b, (1 / 2 : ℚ) * (a + b),
        f ((1 / 2 : ℚ) * (a + b)),
        prevErr cOld ((1 / 2 : ℚ) * (a + b)))],
        |t.2.2.1 - t.2.1| * 2 ^ (t.1 - 1) = w0 := by
      intro t ht
      rcases List.mem_append.1 ht with ht | ht
      · exact hrows t ht
      · simp only [List.mem_singleton] at ht
        subst ht
        simpa using hw
    simp only [App.bisectionLoop] at h
    split_ifs at h with h1 h2
    · obtain rfl := Except.ok.inj h
      exact hrows'
    · refine ih (j + 2) a ((1 / 2 : ℚ) * (a + b)) fa
        (f ((1 / 2 : ℚ) * (a + b))) (some ((1 / 2 : ℚ) * (a + b))) _ r
        (by omega) ?_ hrows' h
      rw [hhalf]
      rw [← hw]
      have : (2 : ℚ) ^ (j + 2 - 1) = 2 ^ (j + 1 - 1) * 2 := by
        rw [show j + 2 - 1 = j + 1 by omega, show j + 1 - 1 = j by omega,
          pow_succ]
      rw [this]
      ring
    · refine ih (j + 2) ((1 / 2 : ℚ) * (a + b)) b
        (f ((1 / 2 : ℚ) * (a + b))) fb (some ((1 / 2 : ℚ) * (a + b))) _ r
        (by omega) ?_ hrows' h
      rw [hhalf']
      rw [← hw]
      have : (2 : ℚ) ^ (j + 2 - 1) = 2 ^ (j + 1 - 1) * 2 := by
        rw [show j + 2 - 1 = j + 1 by omega, show j + 1 - 1 = j by omega,
          pow_succ]
      rw [this]
      ring

/-- C5.  In `app.py` bisection the bracket is exactly halved by every
non-terminal iteration, so every trace row `(i, a', b', …)` — which
records the bracket at the start of iteration `i`, i.e. after `i − 1`
narrowing steps — satisfies `|b' − a'| · 2^(i−1) ≤ |b − a|`;
equivalently, the width after iteration `i` is at most the initial
width divided by `2^i`. -/
theorem C5_bisection_width_halving (f : ℚ → ℚ) (a b : ℚ) (mi : ℕ)
    (tol : ℚ) (r : RunResult BisectRow)
    (h : App.bisection f a b mi tol = .ok r) :
    ∀ i' a' b' c' fc' e', (i', a', b', c', fc', e') ∈ r.rows →
      |b' - a'| * 2 ^ (i' - 1) ≤ |b - a| := by
  unfold App.bisection at h
  split_ifs at h
  intro i' a' b' c' fc' e' ht
  have := bisectionLoop_width_inv f tol mi (|b - a|) mi 1 a b (f a) (f b)
    none [] r (by norm_num) (by norm_num) (by simp) h
    (i', a', b', c', fc', e') ht
  simpa using this.le

/-- C5, witness: the run `f = id`, bracket `(-1, 1)`, `max_iter = 2`,
`tol = 0`; its single row has `|b' − a'| · 2^0 = 2 ≤ 2`. -/
theorem C5_witness :
    |(1 : ℚ) - (-1)| * 2 ^ (1 - 1 : ℕ) ≤ |(1 : ℚ) - (-1)| := by
  have h : App.bisection (fun t => t) (-1) 1 2 0 =
      .ok ⟨0, 0, 1, [(1, -1, 1, 0, 0, none)]⟩ := by
    simp only [App.bisection, App.bisectionLoop, closeToPrev, prevErr]
    norm_num
  exact C5_bisection_width_halving (fun t => t) (-1) 1 2 0 _ h
    1 (-1) 1 0 0 none (by simp)

/-! ## Root containment in the original bracket -/

theorem falsePos_mem (lo hi a b fa fb : ℚ) (hab : fa * fb ≤ 0)
    (hd : fb - fa ≠ 0) (ha1 : lo ≤ a) (ha2 : a ≤ hi) (hb1 : lo ≤ b)
    (hb2 : b ≤ hi) :
    lo ≤ (a * fb - b * fa) / (fb - fa) ∧
      (a * fb - b * fa) / (fb - fa) ≤ hi := by
  rcases mul_nonpos_iff.mp hab with ⟨hfa, hfb⟩ | ⟨hfa, hfb⟩
  · have hdneg : fb - fa < 0 := lt_of_le_of_ne (by linarith) hd
    constructor
    · rw [le_div_iff_of_neg hdneg]
      have e : lo * (fb - fa) - (a * fb - b * fa) =
          (lo - a) * fb + (b - lo) * fa := by ring
      have t1 : 0 ≤ (lo - a) * fb :=
        mul_nonneg_of_nonpos_of_nonpos (by linarith) hfb
      have t2 : 0 ≤ (b - lo) * fa := mul_nonneg (by linarith) hfa
      linarith
    · rw [div_le_iff_of_neg hdneg]
      have e : (a * fb - b * fa) - hi * (fb - fa) =
          (a - hi) * fb + (hi - b) * fa := by ring
      have t1 : 0 ≤ (a - hi) * fb :=
        mul_nonneg_of_nonpos_of_nonpos (by linarith) hfb
      have t2 : 0 ≤ (hi - b) * fa := mul_nonneg (by linarith) hfa
      linarith
  · have hdpos : (0 : ℚ) < fb - fa :=
      lt_of_le_of_ne (by linarith) (Ne.symm hd)
    constructor
    · rw [le_div_iff₀ hdpos]
      have e : (a * fb - b * fa) - lo * (fb - fa) =
          (a - lo) * fb + (lo - b) * fa := by ring
      have t1 : 0 ≤ (a - lo) * fb := mul_nonneg (by linarith) hfb
      have t2 : 0 ≤ (lo - b) * fa :=
        mul_nonneg_of_nonpos_of_nonpos (by linarith) hfa
      linarith
    · rw [div_le_iff₀ hdpos]
      have e : hi * (fb - fa) - (a * fb - b * fa) =
          (hi - a) * fb + (b - hi) * fa := by ring
      have t1 : 0 ≤ (hi - a) * fb := mul_nonneg (by linarith) hfb
      have t2 : 0 ≤ (b - hi) * fa :=
        mul_nonneg_of_nonpos_of_nonpos (by linarith) hfa
      linarith

theorem bisectionLoop_root_mem (f : ℚ → ℚ) (tol : ℚ) (maxIter : ℕ)
    (lo hi : ℚ) :
    ∀ fuel i a b fa fb cOld rows r,
      lo ≤ a → a ≤ hi → lo ≤ b → b ≤ hi →
      (∀ co, cOld = some co → lo ≤ co ∧ co ≤ hi) →
      App.bisectionLoop f tol maxIter fuel i a b fa fb cOld rows = .ok r →
      lo ≤ r.root ∧ r.root ≤ hi := by
  intro fuel
  induction fuel with
  | zero =>
    intro i a b fa fb cOld rows r ha1 ha2 hb1 hb2 hco h
    cases cOld with
    | none => simp [App.bisectionLoop] at h
    | some c =>
      simp only [App.bisectionLoop] at h
      obtain rfl := Except.ok.inj h
      exact hco c rfl
  | succ n ih =>
    intro i a b fa fb cOld rows r ha1 ha2 hb1 hb2 hco h
    have hc1 : lo ≤ (1 / 2 : ℚ) * (a + b) := by linarith
    have hc2 : (1 / 2 : ℚ) * (a + b) ≤ hi := by linarith
    simp only [App.bisectionLoop] at h
    split_ifs at h with h1 h2
    · obtain rfl := Except.ok.inj h
      exact ⟨hc1, hc2⟩
    · exact ih (i + 1) a ((1 / 2 : ℚ) * (a + b)) fa
        (f ((1 / 2 : ℚ) * (a + b))) (some ((1 / 2 : ℚ) * (a + b))) _ r
        ha1 ha2 hc1 hc2
        (fun co hc => by injection hc with hc; exact hc ▸ ⟨hc1, hc2⟩) h
    · exact ih (i + 1) ((1 / 2 : ℚ) * (a + b)) b
        (f ((1 / 2 : ℚ) * (a + b))) fb (some ((1 / 2 : ℚ) * (a + b))) _ r
        hc1 hc2 hb1 hb2
        (fun co hc => by injection hc with hc; exact hc ▸ ⟨hc1, hc2⟩) h

theorem regulaLoop_root_mem (f : ℚ → ℚ) (tol : ℚ) (maxIter : ℕ)
    (lo hi : ℚ) :
    ∀ fuel i a b rows r,
      lo ≤ a → a ≤ hi → lo ≤ b → b ≤ hi →
      f a * f b ≤ 0 →
      (∀ co, (rows.getLast?.map bisectCand) = some co →
        lo ≤ co ∧ co ≤ hi) →
      App.regulaLoop f tol maxIter fuel i a b (f a) (f b)
          (rows.getLast?.map bisectCand) rows = .ok r →
      lo ≤ r.root ∧ r.root ≤ hi := by
  intro fuel
  induction fuel with
  | zero =>
    intro i a b rows r ha1 ha2 hb1 hb2 hab hco h
    cases hg : rows.getLast? with
    | none => rw [hg] at h; simp [App.regulaLoop] at h
    | some t =>
      rw [hg] at h
      simp only [Option.map_some', App.regulaLoop] at h
      obtain rfl := Except.ok.inj h
      exact hco _ (by rw [hg]; rfl)
  | succ n ih =>
    intro i a b rows r ha1 ha2 hb1 hb2 hab hco h
    simp only [App.regulaLoop] at h
    split_ifs at h with h0 h1 h2
    · -- converged this iteration: the root is the false-position point
      obtain rfl := Except.ok.inj h
      exact falsePos_mem lo hi a b (f a) (f b) hab h0 ha1 ha2 hb1 hb2
    · -- f a * fc < 0: narrow to (a, c)
      obtain ⟨hc1, hc2⟩ :=
        falsePos_mem lo hi a b (f a) (f b) hab h0 ha1 ha2 hb1 hb2
      refine ih (i + 1) a ((a * f b - b * f a) / (f b - f a))
        (rows ++ [(i, a, b, (a * f b - b * f a) / (f b - f a),
          f ((a * f b - b * f a) / (f b - f a)),
          prevErr (rows.getLast?.map bisectCand)
            ((a * f b - b * f a) / (f b - f a)))]) r
        ha1 ha2 hc1 hc2 (le_of_lt h2) ?_ ?_
      · intro co hc
        rw [List.getLast?_concat] at hc
        simp only [Option.map_some', bisectCand] at hc
        exact (Option.some.inj hc) ▸ ⟨hc1, hc2⟩
      · rw [List.getLast?_concat]
        simpa [bisectCand] using h
    · -- f a * fc ≥ 0: narrow to (c, b); the new product f c * f b is ≤ 0
      obtain ⟨hc1, hc2⟩ :=
        falsePos_mem lo hi a b (f a) (f b) hab h0 ha1 ha2 hb1 hb2
      have hfc : f ((a * f b - b * f a) / (f b - f a)) ≠ 0 := by
        intro hz
        exact h1 (Or.inl (by rw [hz]; simp))
      have hfa : f a ≠ 0 := by
        intro hz
        -- with f a = 0 the false-position point is a itself, so fc = f a = 0
        have hca : (a * f b - b * f a) / (f b - f a) = a := by
          rw [hz]
          have : f b ≠ 0 := by
            intro hzb; exact h0 (by rw [hz, hzb]; ring)
          field_simp
        exact hfc (by rw [hca, hz])
      have hprod : f ((a * f b - b * f a) / (f b - f a)) * f b ≤ 0 := by
        have h2' : 0 ≤ f a * f ((a * f b - b * f a) / (f b - f a)) :=
          not_lt.mp h2
        have hfa2 : 0 < f a * f a := mul_self_pos.mpr hfa
        have key : (f a * f ((a * f b - b * f a) / (f b - f a))) *
            (f a * f b) ≤ 0 := mul_nonpos_of_nonneg_of_nonpos h2' hab
        nlinarith [key, hfa2]
      refine ih (i + 1) ((a * f b - b * f a) / (f b - f a)) b
        (rows ++ [(i, a, b, (a * f b - b * f a) / (f b - f a),
          f ((a * f b - b * f a) / (f b - f a)),
          prevErr (rows.getLast?.map bisectCand)
            ((a * f b - b * f a) / (f b - f a)))]) r
        hc1 hc2 hb1 hb2 hprod ?_ ?_
      · intro co hc
        rw [List.getLast?_concat] at hc
        simp only [Option.map_some', bisectCand] at hc
        exact (Option.some.inj hc) ▸ ⟨hc1, hc2⟩
      · rw [List.getLast?_concat]
        simpa [bisectCand] using h

/-- C4.  For Bisection and Regula Falsi with a valid bracket
(`f(a)·f(b) ≤ 0`), every run of `app.py` that returns a result (rather
than raising) returns a root estimate inside the original interval
`[min(a,b), max(a,b)]`.  For bisection this is purely geometric (the
midpoint of points in the interval stays in it); for regula falsi the
false-position point is a convex combination of the bracket endpoints,
which stays well-defined because the loop preserves `f(a)·f(b) ≤ 0`. -/
theorem C4_root_in_original_bracket (f : ℚ → ℚ) (a b : ℚ) (mi : ℕ)
    (tol : ℚ) (hbr : f a * f b ≤ 0) :
    (∀ r, App.bisection f a b mi tol = .ok r →
      min a b ≤ r.root ∧ r.root ≤ max a b) ∧
    (∀ r, App.regula_falsi f a b mi tol = .ok r →
      min a b ≤ r.root ∧ r.root ≤ max a b) := by
  constructor
  · intro r h
    unfold App.bisection at h
    split_ifs at h
    exact bisectionLoop_root_mem f tol mi (min a b) (max a b) mi 1 a b
      (f a) (f b) none [] r (min_le_left a b) (le_max_left a b)
      (min_le_right a b) (le_max_right a b) (fun co hc => by simp at hc) h
  · intro r h
    unfold App.regula_falsi at h
    split_ifs at h
    exact regulaLoop_root_mem f tol mi (min a b) (max a b) mi 1 a b [] r
      (min_le_left a b) (le_max_left a b) (min_le_right a b)
      (le_max_right a b) hbr (fun co hc => by simp at hc)
      (by simpa using h)

/-- C4, witness: `f = id`, bracket `(-1, 1)`, `max_iter = 2`,
`tol = 0`; both methods return root `0 ∈ [-1, 1]`. -/
theorem C4_witness :
    min (-1 : ℚ) 1 ≤ 0 ∧ (0 : ℚ) ≤ max (-1 : ℚ) 1 := by
  have hbr : (fun (t : ℚ) => t) (-1) * (fun (t : ℚ) => t) 1 ≤ 0 := by
    norm_num
  have h : App.bisection (fun t => t) (-1) 1 2 0 =
      .ok ⟨0, 0, 1, [(1, -1, 1, 0, 0, none)]⟩ := by
    simp only [App.bisection, App.bisectionLoop, closeToPrev, prevErr]
    norm_num
  exact (C4_root_in_original_bracket (fun t => t) (-1) 1 2 0 hbr).1 _ h

/-! ## Fixed-point stopping and residual semantics -/

theorem fixedLoop_residual_inv (g : ℚ → ℚ) (tol : ℚ) (maxIter : ℕ) :
    ∀ fuel i x0 rows r,
      (∀ t ∈ rows, ¬ fixedErr t < tol) →
      App.fixedLoop g tol maxIter fuel i x0
          (rows.getLast?.map fixedLast) rows = .ok r →
      r.rows.getLast?.map fixedErr = some r.residual ∧
        ∀ t ∈ r.rows.dropLast, ¬ fixedErr t < tol := by
  intro fuel
  induction fuel with
  | zero =>
    intro i x0 rows r hrows h
    cases hg : rows.getLast? with
    | none => rw [hg] at h; simp [App.fixedLoop] at h
    | some t =>
      rw [hg] at h
      simp only [Option.map_some', fixedLast, App.fixedLoop] at h
      obtain rfl := Except.ok.inj h
      refine ⟨by simp [hg, fixedErr], ?_⟩
      intro t' ht'
      exact hrows t' ((List.dropLast_sublist rows).subset ht')
  | succ n ih =>
    intro i x0 rows r hrows h
    simp only [App.fixedLoop] at h
    split_ifs at h with h1
    · obtain rfl := Except.ok.inj h
      refine ⟨by simp [List.getLast?_concat, fixedErr], ?_⟩
      intro t' ht'
      rw [List.dropLast_concat] at ht'
      exact hrows t' ht'
    · refine ih (i + 1) (g x0)
        (rows ++ [(i, x0, g x0, |g x0 - x0|)]) r ?_ ?_
      · intro t' ht'
        rcases List.mem_append.1 ht' with ht' | ht'
        · exact hrows t' ht'
        · simp only [List.mem_singleton] at ht'
          subst ht'
          simpa [fixedErr] using h1
      · rw [List.getLast?_concat]
        simpa [fixedLast] using h

/-- C7.  Fixed-Point Iteration stops only through `err < tol`: in
every successful run all non-final trace rows have step error
`≥ tol` (so an exactly-zero step error does not stop the run unless
`0 < tol` — there is no exact-zero fast path), and the residual the
run reports (converged or exhausted alike) is the step error
`|x1 − x0|` stored in the final trace row, not `|f(root)|`.  The
second conjunct exhibits the missing fast path concretely: with
`g = id` every step error is exactly `0`, yet with `tol = 0` the run
never converges — it exhausts all 3 iterations and reports the step
error `0` as its residual. -/
theorem C7_fixed_point_semantics :
    (∀ g x0 mi tol r, App.fixed_point_iteration g x0 mi tol = .ok r →
      r.rows.getLast?.map fixedErr = some r.residual ∧
        ∀ t ∈ r.rows.dropLast, ¬ fixedErr t < tol) ∧
    App.fixed_point_iteration (fun t => t) 5 3 0 =
      .ok ⟨5, 0, 3, [(1, 5, 5, 0), (2, 5, 5, 0), (3, 5, 5, 0)]⟩ := by
  constructor
  · intro g x0 mi tol r h
    exact fixedLoop_residual_inv g tol mi mi 1 x0 [] r (by simp)
      (by simpa using h)
  · show App.fixedLoop (fun t => t) 0 3 3 1 5 none [] = _
    rw [show (3 : ℕ) = 2 + 1 from rfl]
    simp only [App.fixedLoop]
    norm_num [App.fixedLoop]

/-- C7, witness: a converging run (`g` constant, `tol = 1`) for the
universally quantified first conjunct. -/
theorem C7_witness :
    ∃ r, App.fixed_point_iteration (fun _ => (0 : ℚ)) 0 2 1 = .ok r ∧
      r.rows.getLast?.map fixedErr = some r.residual ∧
        ∀ t ∈ r.rows.dropLast, ¬ fixedErr t < 1 := by
  have h : App.fixed_point_iteration (fun _ => (0 : ℚ)) 0 2 1 =
      .ok ⟨0, 0, 1, [(1, 0, 0, 0)]⟩ := by
    simp only [App.fixed_point_iteration, App.fixedLoop]
    norm_num
  exact ⟨_, h, C7_fixed_point_semantics.1 _ _ _ _ _ h⟩

/-! ## Stop-condition characterisation for the bracketing methods -/

/-- The code's `c_old is not None and abs(c - c_old) < tol`, read the
way the spec phrases it: a previous candidate exists and the candidate
moved by less than `tol`. -/
theorem closeToPrev_iff (cOld : Option ℚ) (c tol : ℚ) :
    closeToPrev cOld c tol = true ↔
      ∃ co, cOld = some co ∧ |c - co| < tol := by
  cases cOld <;> simp [closeToPrev]

theorem bisectionLoop_iters_ge (f : ℚ → ℚ) (tol : ℚ) (maxIter : ℕ) :
    ∀ fuel i a b fa fb cOld rows r,
      fuel + i = maxIter + 1 →
      App.bisectionLoop f tol maxIter fuel i a b fa fb cOld rows = .ok r →
      min i maxIter ≤ r.iters := by
  intro fuel
  induction fuel with
  | zero =>
    intro i a b fa fb cOld rows r hfu h
    cases cOld with
    | none => simp [App.bisectionLoop] at h
    | some c =>
      simp only [App.bisectionLoop] at h
      obtain rfl := Except.ok.inj h
      simp only []
      omega
  | succ n ih =>
    intro i a b fa fb cOld rows r hfu h
    simp only [App.bisectionLoop] at h
    split_ifs at h with h1 h2
    · obtain rfl := Except.ok.inj h
      simp only []
      omega
    · have := ih (i + 1) a _ fa _ _ _ r (by omega) h
      omega
    · have := ih (i + 1) _ b _ fb _ _ r (by omega) h
      omega

theorem regulaLoop_iters_ge (f : ℚ → ℚ) (tol : ℚ) (maxIter : ℕ) :
    ∀ fuel i a b fa fb cOld rows r,
      fuel + i = maxIter + 1 →
      App.regulaLoop f tol maxIter fuel i a b fa fb cOld rows = .ok r →
      min i maxIter ≤ r.iters := by
  intro fuel
  induction fuel with
  | zero =>
    intro i a b fa fb cOld rows r hfu h
    cases cOld with
    | none => simp [App.regulaLoop] at h
    | some c =>
      simp only [App.regulaLoop] at h
      obtain rfl := Except.ok.inj h
      simp only []
      omega
  | succ n ih =>
    intro i a b fa fb cOld rows r hfu h
    simp only [App.regulaLoop] at h
    split_ifs at h with h0 h1 h2
    · obtain rfl := Except.ok.inj h
      simp only []
      omega
    · have := ih (i + 1) a _ fa _ _ _ r (by omega) h
      omega
    · have := ih (i + 1) _ b _ fb _ _ r (by omega) h
      omega

/-- One-step unfolding of the bisection loop, for rewriting exactly
one iteration when the remaining fuel is a compound numeral. -/
theorem bisectionLoop_succ_eq (f : ℚ → ℚ) (tol : ℚ) (maxIter fuel i : ℕ)
    (a b fa fb : ℚ) (cOld : Option ℚ) (rows : List BisectRow) :
    App.bisectionLoop f tol maxIter (fuel + 1) i a b fa fb cOld rows =
      if |f ((1 / 2 : ℚ) * (a + b))| = 0 ∨
          closeToPrev cOld ((1 / 2 : ℚ) * (a + b)) tol ∨
          |b - a| / 2 < tol then
        .ok ⟨(1 / 2 : ℚ) * (a + b), |f ((1 / 2 : ℚ) * (a + b))|, i,
          rows ++ [(i, a, b, (1 / 2 : ℚ) * (a + b),
            f ((1 / 2 : ℚ) * (a + b)),
            prevErr cOld ((1 / 2 : ℚ) * (a + b)))]⟩
      else if fa * f ((1 / 2 : ℚ) * (a + b)) < 0 then
        App.bisectionLoop f tol maxIter fuel (i + 1) a
          ((1 / 2 : ℚ) * (a + b)) fa (f ((1 / 2 : ℚ) * (a + b)))
          (some ((1 / 2 : ℚ) * (a + b)))
          (rows ++ [(i, a, b, (1 / 2 : ℚ) * (a + b),
            f ((1 / 2 : ℚ) * (a + b)),
            prevErr cOld ((1 / 2 : ℚ) * (a + b)))])
      else
        App.bisectionLoop f tol maxIter fuel (i + 1)
          ((1 / 2 : ℚ) * (a + b)) b (f ((1 / 2 : ℚ) * (a + b))) fb
          (some ((1 / 2 : ℚ) * (a + b)))
          (rows ++ [(i, a, b, (1 / 2 : ℚ) * (a + b),
            f ((1 / 2 : ℚ) * (a + b)),
            prevErr cOld ((1 / 2 : ℚ) * (a + b)))]) := rfl

/-- One-step unfolding of the regula-falsi loop. -/
theorem regulaLoop_succ_eq (f : ℚ → ℚ) (tol : ℚ) (maxIter fuel i : ℕ)
    (a b fa fb : ℚ) (cOld : Option ℚ) (rows : List BisectRow) :
    App.regulaLoop f tol maxIter (fuel + 1) i a b fa fb cOld rows =
      if fb - fa = 0 then .error .divisionByZero
      else if |f ((a * fb - b * fa) / (fb - fa))| = 0 ∨
          closeToPrev cOld ((a * fb - b * fa) / (fb - fa)) tol then
        .ok ⟨(a * fb - b * fa) / (fb - fa),
          |f ((a * fb - b * fa) / (fb - fa))|, i,
          rows ++ [(i, a, b, (a * fb - b * fa) / (fb - fa),
            f ((a * fb - b * fa) / (fb - fa)),
            prevErr cOld ((a * fb - b * fa) / (fb - fa)))]⟩
      else if fa * f ((a * fb - b * fa) / (fb - fa)) < 0 then
        App.regulaLoop f tol maxIter fuel (i + 1) a
          ((a * fb - b * fa) / (fb - fa)) fa
          (f ((a * fb - b * fa) / (fb - fa)))
          (some ((a * fb - b * fa) / (fb - fa)))
          (rows ++ [(i, a, b, (a * fb - b * fa) / (fb - fa),
            f ((a * fb - b * fa) / (fb - fa)),
            prevErr cOld ((a * fb - b * fa) / (fb - fa)))])
      else
        App.regulaLoop f tol maxIter fuel (i + 1)
          ((a * fb - b * fa) / (fb - fa)) b
          (f ((a * fb - b * fa) / (fb - fa))) fb
          (some ((a * fb - b * fa) / (fb - fa)))
          (rows ++ [(i, a, b, (a * fb - b * fa) / (fb - fa),
            f ((a * fb - b * fa) / (fb - fa)),
            prevErr cOld ((a * fb - b * fa) / (fb - fa)))]) := rfl

/-- C2.  At any loop state from which at least two more iterations
could still run (so that stopping cannot be confused with exhaustion),
the iteration about to run stops and returns its candidate exactly
when the spec's condition holds.  For Bisection the candidate is the
midpoint `c = (a+b)/2` and the condition is `f(c) = 0`, or a previous
candidate exists (i.e. it is not the first iteration) with
`|c − c_prev| < tol`, or `|b − a|/2 < tol`; for Regula Falsi the
candidate is `c = (a·fb − b·fa)/(fb − fa)` and the condition is the
same **without** the bracket-width disjunct. -/
theorem C2_stop_condition_characterisation (f : ℚ → ℚ) (tol : ℚ)
    (maxIter fuel i : ℕ) (a b fa fb : ℚ) (cOld : Option ℚ)
    (rows : List BisectRow) (hfu : fuel + 2 + i = maxIter + 1) :
    ((∃ r, App.bisectionLoop f tol maxIter (fuel + 2) i a b fa fb cOld
        rows = .ok r ∧ r.iters = i ∧ r.root = (1 / 2 : ℚ) * (a + b)) ↔
      (f ((1 / 2 : ℚ) * (a + b)) = 0 ∨
        (∃ co, cOld = some co ∧ |(1 / 2 : ℚ) * (a + b) - co| < tol) ∨
        |b - a| / 2 < tol)) ∧
    (fb - fa ≠ 0 →
      ((∃ r, App.regulaLoop f tol maxIter (fuel + 2) i a b fa fb cOld
          rows = .ok r ∧ r.iters = i ∧
          r.root = (a * fb - b * fa) / (fb - fa)) ↔
        (f ((a * fb - b * fa) / (fb - fa)) = 0 ∨
          (∃ co, cOld = some co ∧
            |(a * fb - b * fa) / (fb - fa) - co| < tol)))) := by
  constructor
  · constructor
    · rintro ⟨r, hr, hit, hroot⟩
      rw [show fuel + 2 = (fuel + 1) + 1 from rfl,
        bisectionLoop_succ_eq] at hr
      split_ifs at hr with h1 h2
      · rcases h1 with h1 | h1 | h1
        · exact Or.inl (abs_eq_zero.mp h1)
        · exact Or.inr (Or.inl ((closeToPrev_iff cOld _ tol).mp h1))
        · exact Or.inr (Or.inr h1)
      · have := bisectionLoop_iters_ge f tol maxIter (fuel + 1) (i + 1)
          a _ fa _ _ _ r (by omega) hr
        omega
      · have := bisectionLoop_iters_ge f tol maxIter (fuel + 1) (i + 1)
          _ b _ fb _ _ r (by omega) hr
        omega
    · intro hcond
      have hstop : |f ((1 / 2 : ℚ) * (a + b))| = 0 ∨
          closeToPrev cOld ((1 / 2 : ℚ) * (a + b)) tol = true ∨
          |b - a| / 2 < tol := by
        rcases hcond with h | h | h
        · exact Or.inl (abs_eq_zero.mpr h)
        · exact Or.inr (Or.inl ((closeToPrev_iff cOld _ tol).mpr h))
        · exact Or.inr (Or.inr h)
      rw [show fuel + 2 = (fuel + 1) + 1 from rfl,
        bisectionLoop_succ_eq, if_pos hstop]
      exact ⟨_, rfl, rfl, rfl⟩
  · intro hd
    constructor
    · rintro ⟨r, hr, hit, hroot⟩
      rw [show fuel + 2 = (fuel + 1) + 1 from rfl,
        regulaLoop_succ_eq, if_neg hd] at hr
      split_ifs at hr with h1 h2
      · rcases h1 with h1 | h1
        · exact Or.inl (abs_eq_zero.mp h1)
        · exact Or.inr ((closeToPrev_iff cOld _ tol).mp h1)
      · have := regulaLoop_iters_ge f tol maxIter (fuel + 1) (i + 1)
          a _ fa _ _ _ r (by omega) hr
        omega
      · have := regulaLoop_iters_ge f tol maxIter (fuel + 1) (i + 1)
          _ b _ fb _ _ r (by omega) hr
        omega
    · intro hcond
      have hstop : |f ((a * fb - b * fa) / (fb - fa))| = 0 ∨
          closeToPrev cOld ((a * fb - b * fa) / (fb - fa)) tol = true := by
        rcases hcond with h | h
        · exact Or.inl (abs_eq_zero.mpr h)
        · exact Or.inr ((closeToPrev_iff cOld _ tol).mpr h)
      rw [show fuel + 2 = (fuel + 1) + 1 from rfl,
        regulaLoop_succ_eq, if_neg hd, if_pos hstop]
      exact ⟨_, rfl, rfl, rfl⟩

/-- C2, witness: at `f = id`, bracket `(-1, 1)`, first iteration,
`tol = 1`, `max_iter = 3`: both candidates are `0`, `f(0) = 0`, so
both methods stop here and return it. -/
theorem C2_witness :
    (∃ r, App.bisectionLoop (fun t => t) 1 3 (1 + 2) 1 (-1) 1 (-1) 1
        none [] = .ok r ∧ r.iters = 1 ∧
        r.root = (1 / 2 : ℚ) * (-1 + 1)) ∧
    (∃ r, App.regulaLoop (fun t => t) 1 3 (1 + 2) 1 (-1) 1 (-1) 1
        none [] = .ok r ∧ r.iters = 1 ∧
        r.root = ((-1) * 1 - 1 * (-1)) / (1 - (-1))) := by
  have h := C2_stop_condition_characterisation (fun t => t) 1 3 1 1
    (-1) 1 (-1) 1 none [] (by norm_num)
  exact ⟨h.1.mpr (Or.inl (by norm_num)),
    (h.2 (by norm_num)).mpr (Or.inl (by norm_num))⟩

/-! ## Refinement: the CLI and web implementations agree

Each pair of loops is related by forgetting the trace (which only
`app.py` accumulates) and the error identity (the two files raise
`ValueError` vs `ZeroDivisionError` for the same degenerate states). -/

theorem bisection_summary_eq (f : ℚ → ℚ) (tol : ℚ) (maxIter : ℕ) :
    ∀ fuel i a b fa fb cOld rows,
      summary (App.bisectionLoop f tol maxIter fuel i a b fa fb cOld
        rows) =
      cliSummary (CLI.bisectionLoop f tol maxIter fuel i a b fa fb
        cOld) := by
  intro fuel
  induction fuel with
  | zero =>
    intro i a b fa fb cOld rows
    cases cOld <;>
      simp [App.bisectionLoop, CLI.bisectionLoop, summary, cliSummary]
  | succ n ih =>
    intro i a b fa fb cOld rows
    simp only [App.bisectionLoop, CLI.bisectionLoop]
    split_ifs <;> first | apply ih | simp [summary, cliSummary]

theorem regula_summary_eq (f : ℚ → ℚ) (tol : ℚ) (maxIter : ℕ) :
    ∀ fuel i a b fa fb cVal cOld rows,
      (cOld = none → 1 ≤ fuel) →
      (∀ co, cOld = some co → cVal = co) →
      summary (App.regulaLoop f tol maxIter fuel i a b fa fb cOld
        rows) =
      cliSummary (CLI.regulaLoop f tol maxIter fuel i a b fa fb cVal
        cOld) := by
  intro fuel
  induction fuel with
  | zero =>
    intro i a b fa fb cVal cOld rows hnone hsome
    cases cOld with
    | none => exact absurd (hnone rfl) (by omega)
    | some co =>
      rw [hsome co rfl]
      simp [App.regulaLoop, CLI.regulaLoop, summary, cliSummary]
  | succ n ih =>
    intro i a b fa fb cVal cOld rows hnone hsome
    simp only [App.regulaLoop, CLI.regulaLoop]
    split_ifs <;>
      first
        | apply ih <;>
            first
              | intro hc; exact absurd hc (by simp)
              | intro co hc; exact Option.some.inj hc
        | simp [summary, cliSummary]

theorem secant_summary_eq (f : ℚ → ℚ) (tol : ℚ) (maxIter : ℕ) :
    ∀ fuel i x0 x1 last rows,
      summary (App.secantLoop f tol maxIter fuel i x0 x1 last rows) =
      cliSummary (CLI.secantLoop f tol maxIter fuel i x0 x1 last) := by
  intro fuel
  induction fuel with
  | zero =>
    intro i x0 x1 last rows
    cases last <;>
      simp [App.secantLoop, CLI.secantLoop, summary, cliSummary]
  | succ n ih =>
    intro i x0 x1 last rows
    simp only [App.secantLoop, CLI.secantLoop]
    split_ifs <;> first | apply ih | simp [summary, cliSummary]

theorem newton_summary_eq (f df : ℚ → ℚ) (tol : ℚ) (maxIter : ℕ) :
    ∀ fuel i x0 last rows,
      summary (App.newtonLoop f df tol maxIter fuel i x0 last rows) =
      cliSummary (CLI.newtonLoop f df tol maxIter fuel i x0 last) := by
  intro fuel
  induction fuel with
  | zero =>
    intro i x0 last rows
    cases last <;>
      simp [App.newtonLoop, CLI.newtonLoop, summary, cliSummary]
  | succ n ih =>
    intro i x0 last rows
    simp only [App.newtonLoop, CLI.newtonLoop]
    split_ifs <;> first | apply ih | simp [summary, cliSummary]

theorem fixed_summary_eq (g : ℚ → ℚ) (tol : ℚ) (maxIter : ℕ) :
    ∀ fuel i x0 last rows,
      summary (App.fixedLoop g tol maxIter fuel i x0 last rows) =
      cliSummary (CLI.fixedLoop g tol maxIter fuel i x0 last) := by
  intro fuel
  induction fuel with
  | zero =>
    intro i x0 last rows
    match last with
    | none => simp [App.fixedLoop, CLI.fixedLoop, summary, cliSummary]
    | some (x1, err) =>
      simp [App.fixedLoop, CLI.fixedLoop, summary, cliSummary]
  | succ n ih =>
    intro i x0 last rows
    simp only [App.fixedLoop, CLI.fixedLoop]
    split_ifs <;> first | apply ih | simp [summary, cliSummary]

theorem modSec_summary_eq (f : ℚ → ℚ) (delta tol : ℚ) (maxIter : ℕ) :
    ∀ fuel i x0 last rows,
      summary (App.modSecLoop f delta tol maxIter fuel i x0 last
        rows) =
      cliSummary (CLI.modSecLoop f delta tol maxIter fuel i x0
        last) := by
  intro fuel
  induction fuel with
  | zero =>
    intro i x0 last rows
    cases last <;>
      simp [App.modSecLoop, CLI.modSecLoop, summary, cliSummary]
  | succ n ih =>
    intro i x0 last rows
    simp only [App.modSecLoop, CLI.modSecLoop]
    split_ifs <;> first | apply ih | simp [summary, cliSummary]

/-- C9.  For every method, every `max_iter ≥ 1`, and the same pure
evaluators and inputs, the `ZOF_CLI.py` implementation and the
`app.py` implementation agree observably: same root estimate, same
residual magnitude, same iteration count, and one raises exactly when
the other does (`summary`/`cliSummary` forget only the trace, which
the CLI never builds, and the error identity — the CLI raises
`ZeroDivisionError` where `app.py` raises `ValueError` for the same
degenerate state, and the CLI `modified_secant` divides unguarded
where `app.py` checks first, which aborts on exactly the same
inputs). -/
theorem C9_cli_app_equivalence (f df g : ℚ → ℚ) (a b x0 x1 delta : ℚ)
    (max_iter : ℕ) (tol : ℚ) (h : 1 ≤ max_iter) :
    summary (App.bisection f a b max_iter tol) =
      cliSummary (CLI.bisection f a b max_iter tol) ∧
    summary (App.regula_falsi f a b max_iter tol) =
      cliSummary (CLI.regula_falsi f a b max_iter tol) ∧
    summary (App.secant f x0 x1 max_iter tol) =
      cliSummary (CLI.secant f x0 x1 max_iter tol) ∧
    summary (App.newton_raphson f df x0 max_iter tol) =
      cliSummary (CLI.newton_raphson f df x0 max_iter tol) ∧
    summary (App.fixed_point_iteration g x0 max_iter tol) =
      cliSummary (CLI.fixed_point_iteration g x0 max_iter tol) ∧
    summary (App.modified_secant f x0 delta max_iter tol) =
      cliSummary (CLI.modified_secant f x0 delta max_iter tol) := by
  refine ⟨?_, ?_, ?_, ?_, ?_, ?_⟩
  · unfold App.bisection CLI.bisection
    split_ifs
    · simp [summary, cliSummary]
    · exact bisection_summary_eq f tol max_iter max_iter 1 a b
        (f a) (f b) none []
  · unfold App.regula_falsi CLI.regula_falsi
    split_ifs
    · simp [summary, cliSummary]
    · exact regula_summary_eq f tol max_iter max_iter 1 a b
        (f a) (f b) a none [] (fun _ => h) (fun co hc => by simp at hc)
  · exact secant_summary_eq f tol max_iter max_iter 1 x0 x1 none []
  · exact newton_summary_eq f df tol max_iter max_iter 1 x0 none []
  · exact fixed_summary_eq g tol max_iter max_iter 1 x0 none []
  · exact modSec_summary_eq f delta tol max_iter max_iter 1 x0 none []

/-- C9, witness: concrete evaluators and inputs with `max_iter = 1`. -/
theorem C9_witness :
    summary (App.bisection (fun t => t) (-1) 1 1 (1 / 10)) =
      cliSummary (CLI.bisection (fun t => t) (-1) 1 1 (1 / 10)) ∧
    summary (App.modified_secant (fun t => t) 3 (1 / 2) 1 (1 / 10)) =
      cliSummary (CLI.modified_secant (fun t => t) 3 (1 / 2) 1 (1 / 10)) :=
  ⟨(C9_cli_app_equivalence (fun t => t) (fun _ => 1) (fun t => t)
      (-1) 1 3 4 (1 / 2) 1 (1 / 10) (by norm_num)).1,
   (C9_cli_app_equivalence (fun t => t) (fun _ => 1) (fun t => t)
      (-1) 1 3 4 (1 / 2) 1 (1 / 10) (by norm_num)).2.2.2.2.2⟩

end ZOF
